import Mathlib

/-!
Shallow embedding of the single-observation consensus reactor from
`src/node/pkg/processor/reactor/reactor.go`.

Bytes are modelled as `List Nat`, wall-clock instants as `Nat` (the handlers
receive the current time explicitly), and Go's `time.Since(t) > d` becomes
`now - t > d` with truncated subtraction, which agrees with Go for the
non-negative durations used by the reactor.  The `signatures` Go map is an
association list whose insertions happen only when the key is absent (the
code checks presence first), so list length matches Go's `len`.  Handlers
return, besides the new state, the list of gossip `Send` calls they issued,
so that observable I/O can be reasoned about.  The state-transition hook and
metrics are side effects outside the mutable state and are not modelled.
External cryptographic primitives (`crypto.Ecrecover`, `crypto.Keccak256`)
are parameters of the model, as they are external libraries to the file.
-/

abbrev Bytes : Type := List Nat

abbrev Address : Type := List Nat

/-- `ethcommon.BytesToAddress`: keep the last 20 bytes, left-pad with zeros
to exactly 20 bytes. -/
def bytesToAddress (b : Bytes) : Address :=
  let tail := b.drop (b.length - 20)
  List.replicate (20 - tail.length) 0 ++ tail

/-- The seven reactor states (`State` constants in reactor.go). -/
inductive RState where
  | initialized
  | observed
  | unobserved
  | quorum
  | quorumUnobserved
  | finalized
  | timedOut
deriving Repr, DecidableEq

/-- `gossipv1.SignedObservation`: the wire message for foreign observations. -/
structure SignedObservation where
  addr : Bytes
  hash : Bytes
  signature : Bytes
  txHash : Bytes
  messageId : String
deriving Repr, DecidableEq

/-- An `Observation`: the reactor is generic over any message exposing a
message id and a signing digest; we model the capability record directly. -/
structure Obs where
  messageId : String
  signingMsg : Bytes
deriving Repr, DecidableEq

/-- The `Signer` interface: address lookup and signing.  Modelled as total
deterministic functions (a failing signer panics in `observed` and so has no
post-state to reason about). -/
structure Signer where
  addr : Address
  sign : Bytes → Bytes

/-- `Config` of the reactor (durations as `Nat`). -/
structure Config where
  retransmitFrequency : Nat
  quorumGracePeriod : Nat
  quorumTimeout : Nat
  unobservedTimeout : Nat
  signer : Option Signer

/-- The guardian-set snapshot (`node_common.GuardianSet`): an ordered list of
addresses. -/
structure GuardianSet where
  keys : List Address

/-- `GuardianSet.KeyIndex`: index of the first occurrence of an address. -/
def keyIndexAux (keys : List Address) (a : Address) (i : Nat) : Option Nat :=
  match keys with
  | [] => none
  | k :: rest => if k = a then some i else keyIndexAux rest a (i + 1)

def GuardianSet.keyIndex (gs : GuardianSet) (a : Address) : Option Nat :=
  keyIndexAux gs.keys a 0

/-- The `signatures` map: an association list from guardian address to
signature bytes. -/
abbrev SigMap : Type := List (Address × Bytes)

/-- Go map read: first matching key. -/
def mapGet (m : SigMap) (a : Address) : Option Bytes :=
  match m with
  | [] => none
  | (k, v) :: rest => if k = a then some v else mapGet rest a

/-- Go map write: replace the value if the key is present, else append. -/
def mapSet (m : SigMap) (a : Address) (s : Bytes) : SigMap :=
  match m with
  | [] => [(a, s)]
  | (k, v) :: rest => if k = a then (a, s) :: rest else (k, v) :: mapSet rest a s

/-- The mutable fields of the reactor (`reactorState` in reactor.go). -/
structure ReactorState where
  currentState : RState
  firstSeen : Nat
  lastObservation : Nat
  lastTransmission : Nat
  timeQuorum : Nat
  observation : Option Obs
  signatures : SigMap
  localSignature : Option Bytes
deriving Repr, DecidableEq

/-- `NewReactor`: fresh state (zero times, empty map, no observation). -/
def initialState : ReactorState :=
  { currentState := .initialized
    firstSeen := 0
    lastObservation := 0
    lastTransmission := 0
    timeQuorum := 0
    observation := none
    signatures := []
    localSignature := none }

/-- External cryptographic primitives used by `verifySignedObservation`. -/
structure Crypto where
  ecrecover : Bytes → Bytes → Option Bytes
  keccak256 : Bytes → Bytes

/-- The immutable surroundings of one reactor: crypto, guardian-set snapshot,
configuration, and whether a gossip sender was provided. -/
structure Env where
  crypto : Crypto
  gs : GuardianSet
  config : Config
  hasSender : Bool

/-- Modelled from the spec: `vaa.CalculateQuorum` lives in the wormhole SDK,
outside `src/`; the spec defines `quorum(n) = floor(n*2/3) + 1`. -/
def CalculateQuorum (n : Nat) : Nat := n * 2 / 3 + 1

/-- `hasQuorum`: the number of stored signatures reaches quorum. -/
def hasQuorum (gs : GuardianSet) (st : ReactorState) : Bool :=
  st.signatures.length ≥ CalculateQuorum gs.keys.length

/-- Rejection reasons of `verifySignedObservation` (the labels of the
`observations_failed` metric). -/
inductive VerifyError where
  | invalidSignature
  | pubkeyMismatch
  | unknownGuardian
deriving Repr, DecidableEq

/-- `verifySignedObservation`: ECDSA recovery, address derivation from
`keccak256(pk[1:])[12:]`, and guardian-set membership, in source order. -/
def verifySignedObservation (cr : Crypto) (m : SignedObservation)
    (gs : GuardianSet) : Except VerifyError Unit :=
  match cr.ecrecover m.hash m.signature with
  | none => .error .invalidSignature
  | some pk =>
    if bytesToAddress m.addr
        ≠ bytesToAddress ((cr.keccak256 (pk.drop 1)).drop 12) then
      .error .pubkeyMismatch
    else if (gs.keyIndex (bytesToAddress m.addr)).isSome then .ok ()
    else .error .unknownGuardian

/-- One `GossipSender.Send` call, carrying the `SignedObservation` fields the
reactor fills in (`transmitSignature`). -/
structure SendCall where
  addr : Bytes
  hash : Bytes
  signature : Bytes
  txHash : Bytes
  messageId : String
deriving Repr, DecidableEq

/-- Errors `transmitSignature` can return. -/
inductive TxError where
  | noSigner
  | noSender
  | sendFailed
deriving Repr, DecidableEq

/-- Result of `transmitSignature`: the error (if any), the state after the
call, and the `Send` calls issued (a failing `Send` is still a call). -/
structure TxResult where
  err : Option TxError
  state : ReactorState
  sends : List SendCall
deriving Repr, DecidableEq

/-- `transmitSignature`: broadcast the local signature.  `sendOk` is whether
the gossip sender's `Send` returns without error; on success
`lastTransmission` is set to `now`. -/
def transmitSignature (env : Env) (st : ReactorState) (now : Nat)
    (sendOk : Bool) : TxResult :=
  match env.config.signer with
  | none => ⟨some .noSigner, st, []⟩
  | some signer =>
    if env.hasSender then
      let msg : SendCall :=
        { addr := signer.addr
          hash := (st.observation.map (·.signingMsg)).getD []
          signature := st.localSignature.getD []
          txHash := []
          messageId := (st.observation.map (·.messageId)).getD "" }
      if sendOk then
        ⟨none, { st with lastTransmission := now }, [msg]⟩
      else
        ⟨some .sendFailed, st, [msg]⟩
    else ⟨some .noSender, st, []⟩

/-- `observationReceived`: the foreign-observation handler. -/
def observationReceived (env : Env) (st : ReactorState)
    (m : SignedObservation) (now : Nat) : ReactorState :=
  if st.currentState ≠ .observed ∧ st.currentState ≠ .unobserved ∧
     st.currentState ≠ .quorum ∧ st.currentState ≠ .quorumUnobserved ∧
     st.currentState ≠ .initialized then st
  else
    match verifySignedObservation env.crypto m env.gs with
    | .error _ => st
    | .ok _ =>
      let theirAddr := bytesToAddress m.addr
      if (mapGet st.signatures theirAddr).isSome then st
      else
        let st1 : ReactorState :=
          { st with signatures := st.signatures ++ [(theirAddr, m.signature)]
                    lastObservation := now }
        let st2 : ReactorState :=
          if st1.currentState = .initialized then
            { st1 with firstSeen := now, currentState := .unobserved }
          else st1
        if ¬ hasQuorum env.gs st2 then st2
        else
          match st2.currentState with
          | .observed => { st2 with currentState := .quorum }
          | .unobserved => { st2 with currentState := .quorumUnobserved }
          | _ => st2

/-- `observed`: the local-observation handler.  Returns the new state and the
gossip `Send` calls issued. -/
def observed (env : Env) (st : ReactorState) (o : Obs) (now : Nat)
    (sendOk : Bool) : ReactorState × List SendCall :=
  if st.currentState ≠ .initialized ∧ st.currentState ≠ .unobserved ∧
     st.currentState ≠ .quorumUnobserved then (st, [])
  else
    let st0 : ReactorState := { st with observation := some o }
    let signed : ReactorState × List SendCall :=
      match env.config.signer with
      | none => (st0, [])
      | some signer =>
        let s := signer.sign o.signingMsg
        let st1 : ReactorState :=
          { st0 with localSignature := some s
                     signatures := mapSet st0.signatures signer.addr s }
        let tx := transmitSignature env st1 now sendOk
        (tx.state, tx.sends)
    let st2 := signed.1
    match st2.currentState with
    | .quorumUnobserved => ({ st2 with currentState := .quorum }, signed.2)
    | cs =>
      let st3 : ReactorState :=
        match cs with
        | .initialized =>
          { st2 with firstSeen := now, lastObservation := now,
                     currentState := .observed }
        | .unobserved =>
          { st2 with lastObservation := now, currentState := .observed }
        | _ => st2
      if hasQuorum env.gs st3 then
        match st3.currentState with
        | .observed => ({ st3 with currentState := .quorum }, signed.2)
        | _ => (st3, signed.2)
      else (st3, signed.2)

/-- `timeOut`: from `StateQuorum` go to `StateFinalized`, from anywhere else
to `StateTimedOut`. -/
def timeOut (st : ReactorState) : ReactorState :=
  if st.currentState = .quorum then { st with currentState := .finalized }
  else { st with currentState := .timedOut }

/-- Result of one `housekeeping` tick. -/
structure HkResult where
  state : ReactorState
  terminate : Bool
  sends : List SendCall
deriving Repr, DecidableEq

/-- `housekeeping`: the periodic tick handler. -/
def housekeeping (env : Env) (st : ReactorState) (now : Nat)
    (sendOk : Bool) : HkResult :=
  match st.currentState with
  | .unobserved =>
    if now - st.firstSeen > env.config.unobservedTimeout then
      ⟨timeOut st, false, []⟩
    else ⟨st, false, []⟩
  | .observed =>
    let st1 := if now - st.lastObservation > env.config.quorumTimeout then
      timeOut st else st
    if now - st1.lastTransmission > env.config.retransmitFrequency then
      let tx := transmitSignature env st1 now sendOk
      ⟨tx.state, false, tx.sends⟩
    else ⟨st1, false, []⟩
  | .quorum =>
    if now - st.timeQuorum > env.config.quorumGracePeriod ∨
       env.gs.keys.length = st.signatures.length then
      ⟨timeOut st, false, []⟩
    else ⟨st, false, []⟩
  | .quorumUnobserved =>
    if now - st.firstSeen > env.config.unobservedTimeout then
      ⟨timeOut st, false, []⟩
    else ⟨st, false, []⟩
  | .finalized => ⟨st, true, []⟩
  | .timedOut => ⟨st, true, []⟩
  | .initialized => ⟨st, false, []⟩

/-- One event delivered to the driver loop: a local observation, a foreign
observation, or a tick.  `now` is the wall-clock time of delivery and
`sendOk` whether a gossip send issued while handling it succeeds. -/
inductive Event where
  | localObs (o : Obs) (now : Nat) (sendOk : Bool)
  | foreignObs (m : SignedObservation) (now : Nat)
  | tick (now : Nat) (sendOk : Bool)

/-- Dispatch one event, returning the new state and the sends issued. -/
def step (env : Env) (st : ReactorState) (ev : Event) :
    ReactorState × List SendCall :=
  match ev with
  | .localObs o now sendOk => observed env st o now sendOk
  | .foreignObs m now => (observationReceived env st m now, [])
  | .tick now sendOk =>
    let hk := housekeeping env st now sendOk
    (hk.state, hk.sends)

def stepState (env : Env) (st : ReactorState) (ev : Event) : ReactorState :=
  (step env st ev).1

/-- The state after the driver loop has delivered a list of events to a fresh
reactor. -/
def runEvents (env : Env) (evs : List Event) : ReactorState :=
  evs.foldl (stepState env) initialState

/-- `VAASignatures`: iterate the guardian set in order, emitting an entry for
each address with a stored signature.  The `Index` field is a `uint8` in the
source, hence the `% 256`. -/
structure VaaSig where
  index : Nat
  signature : Bytes
deriving Repr, DecidableEq

def vaaSigsAux (sigs : SigMap) (keys : List Address) (i : Nat) : List VaaSig :=
  match keys with
  | [] => []
  | a :: rest =>
    match mapGet sigs a with
    | some s => ⟨i % 256, s⟩ :: vaaSigsAux sigs rest (i + 1)
    | none => vaaSigsAux sigs rest (i + 1)

def VAASignatures (gs : GuardianSet) (st : ReactorState) : List VaaSig :=
  vaaSigsAux st.signatures gs.keys 0

/-! ### Concrete fixtures used by the witness theorems -/

/-- A crypto model for tests: recovery always yields a fixed 33-byte public
key of sevens, and keccak256 is the identity; then the recovered address is
twenty sevens. -/
def cryptoSeven : Crypto :=
  ⟨fun _ _ => some (List.replicate 33 7), fun b => b⟩

def addrSeven : Address := List.replicate 20 7

def gsOne : GuardianSet := ⟨[addrSeven]⟩

def cfgTen : Config := ⟨10, 10, 10, 10, none⟩

def envOne : Env := ⟨cryptoSeven, gsOne, cfgTen, false⟩

def obsA : Obs := ⟨"msg-a", [1, 2, 3]⟩

def msgSeven : SignedObservation := ⟨addrSeven, [4], [5], [], "msg-a"⟩

def stFinal : ReactorState := { initialState with currentState := .finalized }

def stQuorumOne : ReactorState :=
  { initialState with currentState := .quorum,
                      signatures := [(addrSeven, [5])] }

/-! ### Claims -/

/-- C1: once `currentState` is `finalized` or `timedOut`, every delivered
event (local observation, foreign observation, or tick) leaves the reactor
state unchanged and issues no gossip send; housekeeping only reports
`terminate = true`. -/
theorem terminal_state_frozen (env : Env) (st : ReactorState) (ev : Event)
    (h : st.currentState = .finalized ∨ st.currentState = .timedOut) :
    step env st ev = (st, []) ∧
    (∀ now : Nat, ∀ sendOk : Bool,
      (housekeeping env st now sendOk).terminate = true) := by
  rcases h with h | h <;>
    cases ev <;>
      simp [step, observed, observationReceived, housekeeping, h]

/-- Witness for C1 at a concrete finalized state. -/
theorem terminal_state_frozen_witness :
    step envOne stFinal (Event.tick 5 true) = (stFinal, []) ∧
    (housekeeping envOne stFinal 0 true).terminate = true :=
  ⟨(terminal_state_frozen envOne stFinal (Event.tick 5 true) (Or.inl rfl)).1,
   (terminal_state_frozen envOne stFinal (Event.tick 5 true) (Or.inl rfl)).2
     0 true⟩

/-- C2: `hasQuorum` holds exactly when the number of stored signatures is at
least `floor(n*2/3) + 1` for the guardian-set size `n`; for `n = 19` the
threshold is 13. -/
theorem hasQuorum_iff_threshold (gs : GuardianSet) (st : ReactorState) :
    (hasQuorum gs st = true ↔
      st.signatures.length ≥ gs.keys.length * 2 / 3 + 1) ∧
    CalculateQuorum 19 = 13 := by
  refine ⟨?_, rfl⟩
  simp [hasQuorum, CalculateQuorum]

/-- C6: a tick in `StateQuorum` finalizes exactly when the grace period has
elapsed since `timeQuorum` or the signature count equals the guardian-set
size; the resulting state is never `StateTimedOut`, and `timeOut` from
`StateQuorum` always yields `StateFinalized`. -/
theorem quorum_tick_finalizes (env : Env) (st : ReactorState) (now : Nat)
    (sendOk : Bool) (h : st.currentState = .quorum) :
    ((housekeeping env st now sendOk).state.currentState = .finalized ↔
      (now - st.timeQuorum > env.config.quorumGracePeriod ∨
       st.signatures.length = env.gs.keys.length)) ∧
    (housekeeping env st now sendOk).state.currentState ≠ .timedOut ∧
    (st.signatures.length = env.gs.keys.length →
      (housekeeping env st now sendOk).state.currentState = .finalized) ∧
    (timeOut st).currentState = .finalized := by
  have key : (housekeeping env st now sendOk).state.currentState = .finalized ↔
      (now - st.timeQuorum > env.config.quorumGracePeriod ∨
       env.gs.keys.length = st.signatures.length) := by
    by_cases hc : now - st.timeQuorum > env.config.quorumGracePeriod ∨
        env.gs.keys.length = st.signatures.length
    · simp [housekeeping, h, hc, timeOut]
    · simp [housekeeping, h, hc]
  refine ⟨key.trans (or_congr Iff.rfl eq_comm), ?_, ?_, by simp [timeOut, h]⟩
  · by_cases hc : now - st.timeQuorum > env.config.quorumGracePeriod ∨
        env.gs.keys.length = st.signatures.length
    · simp [housekeeping, h, hc, timeOut]
    · simp [housekeeping, h, hc]
  · intro hall
    exact key.mpr (Or.inr hall.symm)

/-- Witness for C6: a one-guardian quorum state with a full signature set
finalizes on a tick even though the grace period has not elapsed. -/
theorem quorum_tick_finalizes_witness :
    (housekeeping envOne stQuorumOne 0 true).state.currentState = .finalized :=
  (quorum_tick_finalizes envOne stQuorumOne 0 true rfl).2.2.1 (by decide)

/-- C9: on a tick in `StateObserved` where both the quorum timeout and the
retransmission condition hold, housekeeping first times out (to the terminal
`StateTimedOut`) and still retransmits: with a signer and a working sender,
one gossip send is issued and `lastTransmission` is set to `now` while the
resulting state is already `StateTimedOut`. -/
theorem observed_tick_timeout_retransmits (env : Env) (st : ReactorState)
    (now : Nat) (sgn : Signer)
    (h1 : st.currentState = .observed)
    (h2 : now - st.lastObservation > env.config.quorumTimeout)
    (h3 : now - st.lastTransmission > env.config.retransmitFrequency)
    (h4 : env.config.signer = some sgn)
    (h5 : env.hasSender = true) :
    (housekeeping env st now true).state.currentState = .timedOut ∧
    (housekeeping env st now true).sends.length = 1 ∧
    (housekeeping env st now true).state.lastTransmission = now := by
  simp [housekeeping, h1, h2, timeOut, transmitSignature, h4, h5, h3]

def sgnNine : Signer := ⟨List.replicate 20 9, fun _ => [9]⟩

def envSigner : Env :=
  ⟨cryptoSeven, gsOne, { cfgTen with signer := some sgnNine }, true⟩

def stObservedZero : ReactorState :=
  { initialState with currentState := .observed, observation := some obsA }

/-- Witness for C9 at a concrete observed state whose timers have both
expired. -/
theorem observed_tick_timeout_retransmits_witness :
    (housekeeping envSigner stObservedZero 11 true).state.currentState
      = .timedOut ∧
    (housekeeping envSigner stObservedZero 11 true).sends.length = 1 ∧
    (housekeeping envSigner stObservedZero 11 true).state.lastTransmission
      = 11 :=
  observed_tick_timeout_retransmits envSigner stObservedZero 11 sgnNine rfl
    (by decide) (by decide) rfl rfl

/-- C10: a tick in `StateInitialized` changes nothing and does not
terminate; consequently a reactor that receives only ticks stays in the
initial state forever and never reaches a terminal state. -/
theorem initialized_tick_frame (env : Env) (st : ReactorState) (now : Nat)
    (sendOk : Bool) (h : st.currentState = .initialized) :
    housekeeping env st now sendOk = ⟨st, false, []⟩ ∧
    (∀ evs : List Event, (∀ ev ∈ evs, ∃ n b, ev = Event.tick n b) →
      runEvents env evs = initialState ∧
      (runEvents env evs).currentState ≠ .finalized ∧
      (runEvents env evs).currentState ≠ .timedOut) := by
  constructor
  · simp [housekeeping, h]
  · intro evs hticks
    have run : runEvents env evs = initialState := by
      have gen : ∀ l : List Event, (∀ ev ∈ l, ∃ n b, ev = Event.tick n b) →
          l.foldl (stepState env) initialState = initialState := by
        intro l
        induction l with
        | nil => intro _; rfl
        | cons ev rest ih =>
          intro hl
          obtain ⟨n, b, rfl⟩ := hl ev (List.mem_cons_self ev rest)
          have hstep : stepState env initialState (Event.tick n b)
              = initialState := by
            simp [stepState, step, housekeeping, initialState]
          simpa [hstep] using ih fun e he => hl e (List.mem_cons_of_mem _ he)
      exact gen evs hticks
    refine ⟨run, ?_, ?_⟩ <;> simp [run, initialState]

/-- Witness for C10: a tick at a fresh reactor. -/
theorem initialized_tick_frame_witness :
    housekeeping envOne initialState 3 true = ⟨initialState, false, []⟩ ∧
    runEvents envOne [Event.tick 3 true] = initialState :=
  ⟨(initialized_tick_frame envOne initialState 3 true rfl).1,
   ((initialized_tick_frame envOne initialState 3 true rfl).2
      [Event.tick 3 true] (by simp)).1⟩

/-! ### Helper lemmas about the signature map -/

/-- No signature stored for a guardian address. -/
def keysNodup (m : SigMap) : Prop := (m.map Prod.fst).Nodup

theorem mapGet_eq_none_iff (m : SigMap) (a : Address) :
    mapGet m a = none ↔ a ∉ m.map Prod.fst := by
  induction m with
  | nil => simp [mapGet]
  | cons p rest ih =>
    obtain ⟨k, v⟩ := p
    by_cases hk : k = a <;> simp [mapGet, hk, ih, Ne.symm]

theorem mapGet_append_self (m : SigMap) (a : Address) (s : Bytes)
    (h : mapGet m a = none) : mapGet (m ++ [(a, s)]) a = some s := by
  induction m with
  | nil => simp [mapGet]
  | cons p rest ih =>
    obtain ⟨k, v⟩ := p
    by_cases hk : k = a
    · simp [mapGet, hk] at h
    · simp [mapGet, hk] at h ⊢
      exact ih h

theorem keysNodup_append (m : SigMap) (a : Address) (s : Bytes)
    (hm : keysNodup m) (h : mapGet m a = none) :
    keysNodup (m ++ [(a, s)]) := by
  have ha := (mapGet_eq_none_iff m a).mp h
  unfold keysNodup at hm ⊢
  rw [List.map_append]
  refine List.Nodup.append hm (List.nodup_singleton a) ?_
  intro x hx hxa
  have hxe : x = a := List.eq_of_mem_singleton hxa
  subst hxe
  exact ha hx

theorem mapSet_keys (m : SigMap) (a : Address) (s : Bytes) :
    (mapSet m a s).map Prod.fst =
      if a ∈ m.map Prod.fst then m.map Prod.fst
      else m.map Prod.fst ++ [a] := by
  induction m with
  | nil => simp [mapSet]
  | cons p rest ih =>
    obtain ⟨k, v⟩ := p
    by_cases hk : k = a
    · simp [mapSet, hk]
    · by_cases hmem : a ∈ rest.map Prod.fst <;>
        simp [mapSet, hk, ih, hmem, Ne.symm hk]

theorem keysNodup_mapSet (m : SigMap) (a : Address) (s : Bytes)
    (hm : keysNodup m) : keysNodup (mapSet m a s) := by
  unfold keysNodup
  rw [mapSet_keys]
  by_cases hmem : a ∈ m.map Prod.fst
  · simpa [hmem] using hm
  · simp only [hmem, if_false]
    unfold keysNodup at hm
    refine List.Nodup.append hm (List.nodup_singleton a) ?_
    intro x hx hxa
    have hxe : x = a := List.eq_of_mem_singleton hxa
    subst hxe
    exact hmem hx

/-! ### Frame lemmas for the handlers -/

theorem timeOut_frame (st : ReactorState) :
    (timeOut st).signatures = st.signatures ∧
    (timeOut st).localSignature = st.localSignature ∧
    (timeOut st).observation = st.observation ∧
    ((timeOut st).currentState = .finalized ∨
     (timeOut st).currentState = .timedOut) := by
  unfold timeOut; split <;> simp

theorem transmitSignature_frame (env : Env) (st : ReactorState) (now : Nat)
    (b : Bool) :
    (transmitSignature env st now b).state.signatures = st.signatures ∧
    (transmitSignature env st now b).state.currentState = st.currentState ∧
    (transmitSignature env st now b).state.localSignature
      = st.localSignature ∧
    (transmitSignature env st now b).state.observation = st.observation := by
  unfold transmitSignature
  rcases env.config.signer with _ | sgn
  · simp
  · by_cases hs : env.hasSender <;> cases b <;> simp [hs]

theorem housekeeping_frame (env : Env) (st : ReactorState) (now : Nat)
    (b : Bool) :
    (housekeeping env st now b).state.signatures = st.signatures ∧
    (housekeeping env st now b).state.localSignature = st.localSignature ∧
    (housekeeping env st now b).state.observation = st.observation := by
  unfold housekeeping
  rcases hcs : st.currentState <;> simp only [hcs] <;> (repeat' split) <;>
    simp [(transmitSignature_frame env (timeOut st) now b).1,
      (transmitSignature_frame env (timeOut st) now b).2.2.1,
      (transmitSignature_frame env (timeOut st) now b).2.2.2,
      (transmitSignature_frame env st now b).1,
      (transmitSignature_frame env st now b).2.2.1,
      (transmitSignature_frame env st now b).2.2.2,
      (timeOut_frame st).1, (timeOut_frame st).2.1, (timeOut_frame st).2.2.1]

theorem observationReceived_dup (env : Env) (st : ReactorState)
    (m : SignedObservation) (now : Nat)
    (h : (mapGet st.signatures (bytesToAddress m.addr)).isSome) :
    observationReceived env st m now = st := by
  unfold observationReceived
  split
  · rfl
  · rcases hv : verifySignedObservation env.crypto m env.gs with e | u <;>
      simp [hv, h]

theorem observationReceived_frame (env : Env) (st : ReactorState)
    (m : SignedObservation) (now : Nat) :
    (observationReceived env st m now).localSignature = st.localSignature ∧
    (observationReceived env st m now).observation = st.observation := by
  unfold observationReceived
  split
  · simp
  · rcases hv : verifySignedObservation env.crypto m env.gs with e | u
    · simp [hv]
    · simp only [hv]
      by_cases hdup : (mapGet st.signatures (bytesToAddress m.addr)).isSome
      · rw [if_pos hdup]; simp
      · rw [if_neg hdup]
        (repeat' split) <;> simp

theorem observationReceived_cases (env : Env) (st : ReactorState)
    (m : SignedObservation) (now : Nat) :
    (observationReceived env st m now).signatures = st.signatures ∨
    (mapGet st.signatures (bytesToAddress m.addr) = none ∧
     (observationReceived env st m now).signatures
       = st.signatures ++ [(bytesToAddress m.addr, m.signature)]) := by
  unfold observationReceived
  split
  · left; rfl
  · rcases hv : verifySignedObservation env.crypto m env.gs with e | u
    · simp [hv]
    · by_cases hdup : (mapGet st.signatures (bytesToAddress m.addr)).isSome
      · simp [hv, hdup]
      · right
        refine ⟨Option.not_isSome_iff_eq_none.mp hdup, ?_⟩
        simp only [hv]
        rw [if_neg hdup]
        (repeat' split) <;> simp

theorem observed_signatures (env : Env) (st : ReactorState) (o : Obs)
    (now : Nat) (b : Bool) :
    (observed env st o now b).1.signatures = st.signatures ∨
    ∃ sgn : Signer, env.config.signer = some sgn ∧
      (observed env st o now b).1.signatures
        = mapSet st.signatures sgn.addr (sgn.sign o.signingMsg) := by
  unfold observed
  split
  · left; rfl
  · rcases hs : env.config.signer with _ | sgn
    · left
      simp only [hs]
      (repeat' split) <;> simp
    · right
      refine ⟨sgn, rfl, ?_⟩
      simp only [hs]
      (repeat' split) <;> simp [transmitSignature_frame]

theorem observationReceived_rejected (env : Env) (st : ReactorState)
    (m : SignedObservation) (now : Nat)
    (h : verifySignedObservation env.crypto m env.gs ≠ .ok ()) :
    observationReceived env st m now = st := by
  unfold observationReceived
  split
  · rfl
  · rcases hv : verifySignedObservation env.crypto m env.gs with e | u
    · simp [hv]
    · cases u; exact absurd hv h

theorem observationReceived_stores (env : Env) (st : ReactorState)
    (m : SignedObservation) (now : Nat)
    (hstate : st.currentState ≠ .finalized ∧ st.currentState ≠ .timedOut)
    (hver : verifySignedObservation env.crypto m env.gs = .ok ())
    (hnew : mapGet st.signatures (bytesToAddress m.addr) = none) :
    (observationReceived env st m now).signatures
      = st.signatures ++ [(bytesToAddress m.addr, m.signature)] ∧
    (observationReceived env st m now).lastObservation = now := by
  have hdup : ¬ (mapGet st.signatures (bytesToAddress m.addr)).isSome = true := by
    simp [hnew]
  have hguard : ¬(st.currentState ≠ RState.observed ∧
      st.currentState ≠ RState.unobserved ∧ st.currentState ≠ RState.quorum ∧
      st.currentState ≠ RState.quorumUnobserved ∧
      st.currentState ≠ RState.initialized) := by
    rcases hcs : st.currentState <;> simp_all
  unfold observationReceived
  rw [if_neg hguard]
  simp only [hver]
  rw [if_neg hdup]
  (repeat' split) <;> simp

theorem stepState_keysNodup (env : Env) (st : ReactorState) (ev : Event)
    (h : keysNodup st.signatures) :
    keysNodup (stepState env st ev).signatures := by
  cases ev with
  | localObs o now b =>
    rcases observed_signatures env st o now b with hsig | ⟨sgn, _, hsig⟩
    · simp only [stepState, step]
      rw [hsig]; exact h
    · simp only [stepState, step]
      rw [hsig]; exact keysNodup_mapSet _ _ _ h
  | foreignObs m now =>
    rcases observationReceived_cases env st m now with hsig | ⟨hnone, hsig⟩
    · simp only [stepState, step]
      rw [hsig]; exact h
    · simp only [stepState, step]
      rw [hsig]; exact keysNodup_append _ _ _ h hnone
  | tick now b =>
    simp only [stepState, step]
    rw [(housekeeping_frame env st now b).1]; exact h

theorem runEvents_keysNodup (env : Env) (evs : List Event) :
    keysNodup (runEvents env evs).signatures := by
  have gen : ∀ l : List Event, ∀ st : ReactorState, keysNodup st.signatures →
      keysNodup (l.foldl (stepState env) st).signatures := by
    intro l
    induction l with
    | nil => intro st h; exact h
    | cons e rest ih => intro st h; exact ih _ (stepState_keysNodup env st e h)
  exact gen evs initialState (by simp [initialState, keysNodup])

/-- C3: at most one signature per guardian address is ever stored (the key
list of `signatures` stays duplicate-free along every execution); a foreign
observation whose recovered address is already present is dropped with no
state change at all; hence two foreign observations from the same guardian
raise the signature count by exactly one and only the first signature is
kept. -/
theorem at_most_one_signature_per_guardian (env : Env) (evs : List Event)
    (st : ReactorState) (m1 m2 : SignedObservation) (now1 now2 : Nat)
    (hstate : st.currentState ≠ .finalized ∧ st.currentState ≠ .timedOut)
    (hver : verifySignedObservation env.crypto m1 env.gs = .ok ())
    (hnew : mapGet st.signatures (bytesToAddress m1.addr) = none)
    (haddr : bytesToAddress m2.addr = bytesToAddress m1.addr) :
    keysNodup (runEvents env evs).signatures ∧
    (∀ st' : ReactorState, ∀ m : SignedObservation, ∀ n : Nat,
      (mapGet st'.signatures (bytesToAddress m.addr)).isSome = true →
      observationReceived env st' m n = st') ∧
    (observationReceived env st m1 now1).signatures.length
      = st.signatures.length + 1 ∧
    mapGet (observationReceived env st m1 now1).signatures
      (bytesToAddress m1.addr) = some m1.signature ∧
    observationReceived env (observationReceived env st m1 now1) m2 now2
      = observationReceived env st m1 now1 := by
  obtain ⟨hsig, -⟩ := observationReceived_stores env st m1 now1 hstate hver hnew
  refine ⟨runEvents_keysNodup env evs,
    fun st' m n h => observationReceived_dup env st' m n h, ?_, ?_, ?_⟩
  · rw [hsig]; simp
  · rw [hsig]; exact mapGet_append_self _ _ _ hnew
  · apply observationReceived_dup
    rw [haddr, hsig, mapGet_append_self _ _ _ hnew]
    rfl

def msgSevenAlt : SignedObservation := ⟨addrSeven, [4], [6], [], "msg-a"⟩

/-- Witness for C3: a concrete duplicate pair from the single guardian. -/
theorem at_most_one_signature_per_guardian_witness :
    (observationReceived envOne initialState msgSeven 1).signatures.length
      = initialState.signatures.length + 1 ∧
    mapGet (observationReceived envOne initialState msgSeven 1).signatures
      (bytesToAddress msgSeven.addr) = some msgSeven.signature ∧
    observationReceived envOne (observationReceived envOne initialState msgSeven 1)
      msgSevenAlt 2 = observationReceived envOne initialState msgSeven 1 := by
  have h := at_most_one_signature_per_guardian envOne [] initialState msgSeven
    msgSevenAlt 1 2 (by decide) (by rfl) (by decide) (by decide)
  exact ⟨h.2.2.1, h.2.2.2.1, h.2.2.2.2⟩

theorem verify_ok_iff (cr : Crypto) (m : SignedObservation)
    (gs : GuardianSet) :
    verifySignedObservation cr m gs = .ok () ↔
      ∃ pk, cr.ecrecover m.hash m.signature = some pk ∧
        bytesToAddress ((cr.keccak256 (pk.drop 1)).drop 12)
          = bytesToAddress m.addr ∧
        (gs.keyIndex (bytesToAddress m.addr)).isSome = true := by
  unfold verifySignedObservation
  rcases hr : cr.ecrecover m.hash m.signature with _ | pk
  · simp
  · simp only [ne_eq]
    by_cases hm : bytesToAddress m.addr
        = bytesToAddress ((cr.keccak256 (pk.drop 1)).drop 12)
    · rw [if_neg (not_not_intro hm)]
      by_cases hk : (gs.keyIndex (bytesToAddress m.addr)).isSome = true
      · rw [if_pos hk]
        exact iff_of_true rfl ⟨pk, rfl, hm.symm, hk⟩
      · rw [if_neg hk]
        refine iff_of_false (by simp) ?_
        rintro ⟨pk', h1, h2, h3⟩
        obtain rfl := Option.some.inj h1
        exact hk h3
    · rw [if_pos hm]
      refine iff_of_false (by simp) ?_
      rintro ⟨pk', h1, h2, h3⟩
      obtain rfl := Option.some.inj h1
      exact hm h2.symm

theorem verify_invalid_iff (cr : Crypto) (m : SignedObservation)
    (gs : GuardianSet) :
    verifySignedObservation cr m gs = .error .invalidSignature ↔
      cr.ecrecover m.hash m.signature = none := by
  unfold verifySignedObservation
  rcases hr : cr.ecrecover m.hash m.signature with _ | pk
  · simp
  · simp only [ne_eq]
    by_cases hm : bytesToAddress m.addr
        = bytesToAddress ((cr.keccak256 (pk.drop 1)).drop 12)
    · rw [if_neg (not_not_intro hm)]
      by_cases hk : (gs.keyIndex (bytesToAddress m.addr)).isSome = true
      · rw [if_pos hk]; simp
      · rw [if_neg hk]; simp
    · rw [if_pos hm]; simp

theorem verify_mismatch_iff (cr : Crypto) (m : SignedObservation)
    (gs : GuardianSet) :
    verifySignedObservation cr m gs = .error .pubkeyMismatch ↔
      ∃ pk, cr.ecrecover m.hash m.signature = some pk ∧
        bytesToAddress ((cr.keccak256 (pk.drop 1)).drop 12)
          ≠ bytesToAddress m.addr := by
  unfold verifySignedObservation
  rcases hr : cr.ecrecover m.hash m.signature with _ | pk
  · simp
  · simp only [ne_eq]
    by_cases hm : bytesToAddress m.addr
        = bytesToAddress ((cr.keccak256 (pk.drop 1)).drop 12)
    · rw [if_neg (not_not_intro hm)]
      have hrhs : ¬ ∃ pk', some pk = some pk' ∧
          bytesToAddress ((cr.keccak256 (pk'.drop 1)).drop 12)
            ≠ bytesToAddress m.addr := by
        rintro ⟨pk', h1, h2⟩
        obtain rfl := Option.some.inj h1
        exact h2 hm.symm
      by_cases hk : (gs.keyIndex (bytesToAddress m.addr)).isSome = true
      · rw [if_pos hk]
        exact iff_of_false (by simp) hrhs
      · rw [if_neg hk]
        exact iff_of_false (by simp) hrhs
    · rw [if_pos hm]
      exact iff_of_true rfl ⟨pk, rfl, fun h => hm h.symm⟩

theorem verify_unknown_iff (cr : Crypto) (m : SignedObservation)
    (gs : GuardianSet) :
    verifySignedObservation cr m gs = .error .unknownGuardian ↔
      ∃ pk, cr.ecrecover m.hash m.signature = some pk ∧
        bytesToAddress ((cr.keccak256 (pk.drop 1)).drop 12)
          = bytesToAddress m.addr ∧
        ¬ (gs.keyIndex (bytesToAddress m.addr)).isSome = true := by
  unfold verifySignedObservation
  rcases hr : cr.ecrecover m.hash m.signature with _ | pk
  · simp
  · simp only [ne_eq]
    by_cases hm : bytesToAddress m.addr
        = bytesToAddress ((cr.keccak256 (pk.drop 1)).drop 12)
    · rw [if_neg (not_not_intro hm)]
      by_cases hk : (gs.keyIndex (bytesToAddress m.addr)).isSome = true
      · rw [if_pos hk]
        refine iff_of_false (by simp) ?_
        rintro ⟨pk', h1, h2, h3⟩
        obtain rfl := Option.some.inj h1
        exact h3 hk
      · rw [if_neg hk]
        exact iff_of_true rfl ⟨pk, rfl, hm.symm, hk⟩
    · rw [if_pos hm]
      refine iff_of_false (by simp) ?_
      rintro ⟨pk', h1, h2, h3⟩
      obtain rfl := Option.some.inj h1
      exact hm h2.symm

/-- C4: a foreign observation is stored only when signature verification
succeeds, and verification succeeds exactly when ECDSA recovery succeeds,
the address derived from the last 20 bytes of `keccak256(pubkey[1:])` equals
`addr`, and `addr` is in the guardian set; the three failure modes carry the
reasons `invalid_signature`, `pubkey_mismatch` and `unknown_guardian`; hence
every accepted foreign observation has recovered address equal to `addr` and
`addr` a guardian-set member. -/
theorem foreign_observation_verification (env : Env) (st : ReactorState)
    (m : SignedObservation) (now : Nat) :
    (verifySignedObservation env.crypto m env.gs = .ok () ↔
      ∃ pk, env.crypto.ecrecover m.hash m.signature = some pk ∧
        bytesToAddress ((env.crypto.keccak256 (pk.drop 1)).drop 12)
          = bytesToAddress m.addr ∧
        (env.gs.keyIndex (bytesToAddress m.addr)).isSome = true) ∧
    (verifySignedObservation env.crypto m env.gs
        = .error .invalidSignature ↔
      env.crypto.ecrecover m.hash m.signature = none) ∧
    (verifySignedObservation env.crypto m env.gs = .error .pubkeyMismatch ↔
      ∃ pk, env.crypto.ecrecover m.hash m.signature = some pk ∧
        bytesToAddress ((env.crypto.keccak256 (pk.drop 1)).drop 12)
          ≠ bytesToAddress m.addr) ∧
    (verifySignedObservation env.crypto m env.gs = .error .unknownGuardian ↔
      ∃ pk, env.crypto.ecrecover m.hash m.signature = some pk ∧
        bytesToAddress ((env.crypto.keccak256 (pk.drop 1)).drop 12)
          = bytesToAddress m.addr ∧
        ¬ (env.gs.keyIndex (bytesToAddress m.addr)).isSome = true) ∧
    ((observationReceived env st m now).signatures ≠ st.signatures →
      verifySignedObservation env.crypto m env.gs = .ok () ∧
      ∃ pk, env.crypto.ecrecover m.hash m.signature = some pk ∧
        bytesToAddress ((env.crypto.keccak256 (pk.drop 1)).drop 12)
          = bytesToAddress m.addr ∧
        (env.gs.keyIndex (bytesToAddress m.addr)).isSome = true) := by
  refine ⟨verify_ok_iff env.crypto m env.gs,
    verify_invalid_iff env.crypto m env.gs,
    verify_mismatch_iff env.crypto m env.gs,
    verify_unknown_iff env.crypto m env.gs, ?_⟩
  intro hstored
  have hok : verifySignedObservation env.crypto m env.gs = .ok () := by
    by_contra hne
    exact hstored (by rw [observationReceived_rejected env st m now hne])
  exact ⟨hok, (verify_ok_iff env.crypto m env.gs).mp hok⟩

/-- Witness for C4: the stored foreign observation `msgSeven` verifies. -/
theorem foreign_observation_verification_witness :
    verifySignedObservation envOne.crypto msgSeven envOne.gs = .ok () ∧
    ∃ pk, envOne.crypto.ecrecover msgSeven.hash msgSeven.signature = some pk ∧
      bytesToAddress ((envOne.crypto.keccak256 (pk.drop 1)).drop 12)
        = bytesToAddress msgSeven.addr ∧
      (envOne.gs.keyIndex (bytesToAddress msgSeven.addr)).isSome = true :=
  (foreign_observation_verification envOne initialState msgSeven 1).2.2.2.2
    (by decide)

/-- The states permitted once the stored signatures reach quorum. -/
def qStates (s : RState) : Prop :=
  s = .quorum ∨ s = .quorumUnobserved ∨ s = .finalized ∨ s = .timedOut

theorem observationReceived_quorumInv (env : Env) (st : ReactorState)
    (m : SignedObservation) (now : Nat)
    (h : hasQuorum env.gs st = true → qStates st.currentState) :
    hasQuorum env.gs (observationReceived env st m now) = true →
      qStates (observationReceived env st m now).currentState := by
  unfold observationReceived
  split
  · exact h
  · rcases hv : verifySignedObservation env.crypto m env.gs with e | u
    · simpa [hv] using h
    · simp only [hv]
      by_cases hdup : (mapGet st.signatures (bytesToAddress m.addr)).isSome
      · rw [if_pos hdup]; exact h
      · rw [if_neg hdup]
        rcases hcs : st.currentState <;>
          simp_all [qStates] <;> (repeat' split) <;> simp_all [qStates]

theorem observed_quorumInv (env : Env) (st : ReactorState) (o : Obs)
    (now : Nat) (b : Bool)
    (h : hasQuorum env.gs st = true → qStates st.currentState) :
    hasQuorum env.gs (observed env st o now b).1 = true →
      qStates (observed env st o now b).1.currentState := by
  unfold observed
  split
  · exact h
  · rcases hs : env.config.signer with _ | sgn <;>
      rcases hcs : st.currentState <;>
        simp_all [transmitSignature_frame, qStates] <;>
          (repeat' split) <;> simp_all [qStates]

theorem housekeeping_quorumInv (env : Env) (st : ReactorState) (now : Nat)
    (b : Bool)
    (h : hasQuorum env.gs st = true → qStates st.currentState) :
    hasQuorum env.gs (housekeeping env st now b).state = true →
      qStates (housekeeping env st now b).state.currentState := by
  unfold housekeeping
  rcases hcs : st.currentState <;> simp only [hcs] <;> (repeat' split) <;>
    simp_all [qStates, timeOut, hasQuorum, transmitSignature_frame, hcs]

theorem runEvents_quorumInv (env : Env) (evs : List Event) :
    hasQuorum env.gs (runEvents env evs) = true →
      qStates (runEvents env evs).currentState := by
  have gen : ∀ l : List Event, ∀ st : ReactorState,
      (hasQuorum env.gs st = true → qStates st.currentState) →
      hasQuorum env.gs (l.foldl (stepState env) st) = true →
        qStates (l.foldl (stepState env) st).currentState := by
    intro l
    induction l with
    | nil => intro st h; exact h
    | cons e rest ih =>
      intro st h
      refine ih (stepState env st e) ?_
      cases e with
      | localObs o now b => exact observed_quorumInv env st o now b h
      | foreignObs m now => exact observationReceived_quorumInv env st m now h
      | tick now b => exact housekeeping_quorumInv env st now b h
  refine gen evs initialState ?_
  intro hq
  exfalso
  simp [hasQuorum, initialState, CalculateQuorum] at hq

/-- C5: in every state reachable at the end of an event handler, if the
number of stored signatures has reached `CalculateQuorum` of the
guardian-set size, the reactor is in one of `StateQuorum`,
`StateQuorumUnobserved`, `StateFinalized`, `StateTimedOut` — the quorum
check runs after every signature storage, including when the local
signature alone pushes the count over the threshold. -/
theorem quorum_count_forces_quorum_state (env : Env) (evs : List Event)
    (h : (runEvents env evs).signatures.length
      ≥ CalculateQuorum env.gs.keys.length) :
    (runEvents env evs).currentState = .quorum ∨
    (runEvents env evs).currentState = .quorumUnobserved ∨
    (runEvents env evs).currentState = .finalized ∨
    (runEvents env evs).currentState = .timedOut :=
  runEvents_quorumInv env evs (by simpa [hasQuorum] using h)

/-- Witness for C5: one guardian, one accepted foreign observation; the
count 1 meets `CalculateQuorum 1 = 1` and the reactor indeed sits in
`StateQuorumUnobserved`. -/
theorem quorum_count_forces_quorum_state_witness :
    (runEvents envOne [Event.foreignObs msgSeven 1]).currentState = .quorum ∨
    (runEvents envOne [Event.foreignObs msgSeven 1]).currentState
      = .quorumUnobserved ∨
    (runEvents envOne [Event.foreignObs msgSeven 1]).currentState
      = .finalized ∨
    (runEvents envOne [Event.foreignObs msgSeven 1]).currentState
      = .timedOut :=
  quorum_count_forces_quorum_state envOne [Event.foreignObs msgSeven 1]
    (by decide)

theorem observed_noSigner (env : Env) (st : ReactorState) (o : Obs)
    (now : Nat) (b : Bool) (hs : env.config.signer = none) :
    (observed env st o now b).1.signatures = st.signatures ∧
    (observed env st o now b).1.localSignature = st.localSignature ∧
    (observed env st o now b).2 = [] := by
  unfold observed
  split
  · simp
  · simp only [hs]
    (repeat' split) <;> simp

theorem housekeeping_noSigner_sends (env : Env) (st : ReactorState)
    (now : Nat) (b : Bool) (hs : env.config.signer = none) :
    (housekeeping env st now b).sends = [] := by
  unfold housekeeping
  rcases hcs : st.currentState <;> simp only [hcs] <;> (repeat' split) <;>
    simp [transmitSignature, hs]

theorem observed_initial_noSigner (env : Env) (o : Obs) (now : Nat)
    (b : Bool) (hs : env.config.signer = none) :
    (observed env initialState o now b).1.currentState = .observed := by
  unfold observed
  simp [hs, initialState, hasQuorum, CalculateQuorum]

/-- C8: with a nil `Signer` the reactor is observer-only: no execution ever
stores a `localSignature`, the local handler never adds a signature to the
map, the gossip sender is never called by any handler (`transmitSignature`
fails before sending, including on retransmission ticks), and yet the state
transition of the local handler still fires, so `StateObserved` is reachable
without a signer. -/
theorem no_signer_observer_only (env : Env)
    (hs : env.config.signer = none) :
    (∀ evs : List Event, (runEvents env evs).localSignature = none) ∧
    (∀ st : ReactorState, ∀ ev : Event, (step env st ev).2 = []) ∧
    (∀ st : ReactorState, ∀ now : Nat, ∀ b : Bool,
      transmitSignature env st now b = ⟨some .noSigner, st, []⟩) ∧
    (∀ st : ReactorState, ∀ o : Obs, ∀ now : Nat, ∀ b : Bool,
      (observed env st o now b).1.signatures = st.signatures) ∧
    (∀ o : Obs, ∀ now : Nat, ∀ b : Bool,
      (observed env initialState o now b).1.currentState = .observed) := by
  have hlocal : ∀ st : ReactorState, ∀ ev : Event,
      (stepState env st ev).localSignature = st.localSignature := by
    intro st ev
    cases ev with
    | localObs o now b =>
      exact (observed_noSigner env st o now b hs).2.1
    | foreignObs m now =>
      exact (observationReceived_frame env st m now).1
    | tick now b =>
      exact (housekeeping_frame env st now b).2.1
  refine ⟨?_, ?_, ?_, ?_, ?_⟩
  · intro evs
    have gen : ∀ l : List Event, ∀ st : ReactorState,
        st.localSignature = none →
        (l.foldl (stepState env) st).localSignature = none := by
      intro l
      induction l with
      | nil => intro st h; exact h
      | cons e rest ih =>
        intro st h
        exact ih _ ((hlocal st e).trans h)
    exact gen evs initialState rfl
  · intro st ev
    cases ev with
    | localObs o now b => exact (observed_noSigner env st o now b hs).2.2
    | foreignObs m now => rfl
    | tick now b => exact housekeeping_noSigner_sends env st now b hs
  · intro st now b
    simp [transmitSignature, hs]
  · intro st o now b
    exact (observed_noSigner env st o now b hs).1
  · intro o now b
    exact observed_initial_noSigner env o now b hs

/-- Witness for C8 on the concrete signer-less environment. -/
theorem no_signer_observer_only_witness :
    (runEvents envOne [Event.localObs obsA 1 true]).localSignature = none ∧
    (step envOne initialState (Event.tick 99 true)).2 = [] ∧
    transmitSignature envOne initialState 0 true
      = ⟨some .noSigner, initialState, []⟩ ∧
    (observed envOne initialState obsA 1 true).1.currentState = .observed := by
  have h := no_signer_observer_only envOne rfl
  exact ⟨h.1 [Event.localObs obsA 1 true],
    h.2.1 initialState (Event.tick 99 true),
    h.2.2.1 initialState 0 true,
    h.2.2.2.2 obsA 1 true⟩

theorem vaaSigsAux_map_signature (sigs : SigMap) (keys : List Address)
    (i : Nat) :
    (vaaSigsAux sigs keys i).map (fun e => e.signature)
      = (keys.filter (fun a => (mapGet sigs a).isSome)).map
          (fun a => (mapGet sigs a).getD []) := by
  induction keys generalizing i with
  | nil => rfl
  | cons a rest ih =>
    rcases hg : mapGet sigs a with _ | s <;>
      simp [vaaSigsAux, hg, ih]

theorem vaaSigsAux_index_mem (sigs : SigMap) (keys : List Address) (i : Nat) :
    ∀ e ∈ vaaSigsAux sigs keys i,
      ∃ j, j < keys.length ∧ e.index = (i + j) % 256 := by
  induction keys generalizing i with
  | nil => intro e he; simp [vaaSigsAux] at he
  | cons a rest ih =>
    intro e he
    rcases hg : mapGet sigs a with _ | s
    · simp only [vaaSigsAux, hg] at he
      obtain ⟨j, hj, hidx⟩ := ih (i + 1) e he
      refine ⟨j + 1, by simp; omega, by omega⟩
    · simp only [vaaSigsAux, hg] at he
      rw [List.mem_cons] at he
      rcases he with he | he
      · refine ⟨0, by simp, ?_⟩
        rw [he]
        simp
      · obtain ⟨j, hj, hidx⟩ := ih (i + 1) e he
        refine ⟨j + 1, by simp; omega, by omega⟩

theorem vaaSigsAux_pairwise (sigs : SigMap) (keys : List Address) (i : Nat)
    (h : i + keys.length ≤ 256) :
    List.Pairwise (fun e f => e.index < f.index) (vaaSigsAux sigs keys i) := by
  induction keys generalizing i with
  | nil => simp [vaaSigsAux]
  | cons a rest ih =>
    simp only [List.length_cons] at h
    rcases hg : mapGet sigs a with _ | s
    · simp only [vaaSigsAux, hg]
      exact ih (i + 1) (by omega)
    · simp only [vaaSigsAux, hg]
      refine List.Pairwise.cons ?_ (ih (i + 1) (by omega))
      intro e he
      obtain ⟨j, hj, hidx⟩ := vaaSigsAux_index_mem sigs rest (i + 1) e he
      show i % 256 < e.index
      omega

theorem vaaSigsAux_keyIndex (sigs : SigMap) (keys : List Address) (i : Nat)
    (hnd : keys.Nodup) (hlen : i + keys.length ≤ 256) :
    ∀ e ∈ vaaSigsAux sigs keys i, ∃ a, a ∈ keys ∧
      keyIndexAux keys a i = some e.index ∧
      mapGet sigs a = some e.signature := by
  induction keys generalizing i with
  | nil => intro e he; simp [vaaSigsAux] at he
  | cons k rest ih =>
    have hk_not : k ∉ rest := (List.nodup_cons.mp hnd).1
    have hnd' : rest.Nodup := (List.nodup_cons.mp hnd).2
    simp only [List.length_cons] at hlen
    intro e he
    rcases hg : mapGet sigs k with _ | s
    · simp only [vaaSigsAux, hg] at he
      obtain ⟨a, ha, hki, hsg⟩ := ih (i + 1) hnd' (by omega) e he
      refine ⟨a, List.mem_cons_of_mem _ ha, ?_, hsg⟩
      have hne : ¬ k = a := fun hkey => hk_not (hkey ▸ ha)
      simp [keyIndexAux, hne, hki]
    · simp only [vaaSigsAux, hg] at he
      rw [List.mem_cons] at he
      rcases he with he | he
      · subst he
        have hmod : i % 256 = i := Nat.mod_eq_of_lt (by omega)
        exact ⟨k, List.mem_cons_self k rest,
          by simp [keyIndexAux, hmod], by rw [hg]⟩
      · obtain ⟨a, ha, hki, hsg⟩ := ih (i + 1) hnd' (by omega) e he
        refine ⟨a, List.mem_cons_of_mem _ ha, ?_, hsg⟩
        have hne : ¬ k = a := fun hkey => hk_not (hkey ▸ ha)
        simp [keyIndexAux, hne, hki]

/-- C7: for a duplicate-free guardian-set snapshot of at most 256 guardians,
`VAASignatures` emits one entry per stored address present in the snapshot,
in guardian-set order (carrying that address's stored signature); its output
is strictly ascending by guardian-set index, every index is below the
guardian-set size, and each entry's index is the guardian-set index of an
address whose stored signature is the entry's signature.  Addresses present
in the map but absent from the snapshot produce no entry. -/
theorem vaa_signatures_ordered (gs : GuardianSet) (st : ReactorState)
    (hnd : gs.keys.Nodup) (hlen : gs.keys.length ≤ 256) :
    List.Pairwise (fun e f => e.index < f.index) (VAASignatures gs st) ∧
    (∀ e ∈ VAASignatures gs st, e.index < gs.keys.length) ∧
    (VAASignatures gs st).map (fun e => e.signature)
      = (gs.keys.filter (fun a => (mapGet st.signatures a).isSome)).map
          (fun a => (mapGet st.signatures a).getD []) ∧
    (∀ e ∈ VAASignatures gs st, ∃ a, gs.keyIndex a = some e.index ∧
      mapGet st.signatures a = some e.signature) := by
  refine ⟨?_, ?_, ?_, ?_⟩
  · exact vaaSigsAux_pairwise st.signatures gs.keys 0 (by omega)
  · intro e he
    obtain ⟨j, hj, hidx⟩ := vaaSigsAux_index_mem st.signatures gs.keys 0 e he
    omega
  · exact vaaSigsAux_map_signature st.signatures gs.keys 0
  · intro e he
    obtain ⟨a, ha, hki, hsg⟩ :=
      vaaSigsAux_keyIndex st.signatures gs.keys 0 hnd (by omega) e he
    exact ⟨a, hki, hsg⟩

/-- Witness for C7 on the one-guardian snapshot with one stored signature. -/
theorem vaa_signatures_ordered_witness :
    (VAASignatures gsOne stQuorumOne).map (fun e => e.signature)
      = (gsOne.keys.filter
          (fun a => (mapGet stQuorumOne.signatures a).isSome)).map
          (fun a => (mapGet stQuorumOne.signatures a).getD []) :=
  (vaa_signatures_ordered gsOne stQuorumOne (by decide) (by decide)).2.2.1
